import Mathlib

/-!
Verification of the repository tracking and polling engine (a chat-bot git
monitor plugin, source files plugin.py and config.py) against its
natural-language specification.

The embedding models the mutable Python objects as explicit state records.
Git's linear per-branch history is modelled as a list of commit ids (Nat),
oldest first; the branch head is the last element.  Python strings are
modelled as Lean String (equivalently List Char for the scanners).
-/

/-- Errors raised by the external GitPython library (opaque to the core;
the message identifies the failing operation). -/
inductive GitErr where
  | gitCommandError (msg : String)
  deriving DecidableEq

/-- Read-only commit view (GitPython commit object fields used by the core:
hexsha, author.name, author.email, message). -/
structure Commit where
  hexsha : String
  authorName : String
  authorEmail : String
  message : String
  deriving DecidableEq

/-- Repository state: the fields of plugin.py's Repository object that the
core operations read or write.  branchLog models the on-disk mirror
(self.repo): each tracked ref's linear history, oldest first.
commit_by_branch maps a branch to its cursor commit; Python stores a commit
object or None, modelled as Option Nat. -/
structure Repository where
  branches : List String
  commit_by_branch : List (String × Option Nat)
  branchLog : List (String × List Nat)
  errors : List GitErr
  channels : List String
  commit_link : String
  commit_message : String
  group_header : Bool
  long_name : String
  short_name : String
  url : String
  deriving DecidableEq

/-- The remote repository as seen over the network: its refs, and whether it
is reachable at all (remotes[0].update() fails when it is not). -/
structure Remote where
  refs : List (String × List Nat)
  reachable : Bool
  deriving DecidableEq

/-- Association-list lookup (Python dict read, first match wins). -/
def alookup {α : Type} : List (String × α) → String → Option α
  | [], _ => none
  | (k, v) :: rest, key => if k = key then some v else alookup rest key

/-- Association-list update (Python dict write: replace the entry if the key
exists, else append it). -/
def setEntry {α : Type} : List (String × α) → String → α → List (String × α)
  | [], k, v => [(k, v)]
  | (k', v') :: rest, k, v =>
      if k' = k then (k, v) :: rest else (k', v') :: setEntry rest k v

/-- Models _get_commits(repo, first, last) over a linear branch history whose
head is the list's last element: git's first..last is the suffix strictly
after the cursor (empty when the cursor is the head, or absent). -/
def commitsAfter : List Nat → Nat → List Nat
  | [], _ => []
  | c :: cs, first => if c = first then cs else commitsAfter cs first

/-- Models repo.commit(rev) for a branch name rev: the current head of that
branch in the local mirror, None when the ref cannot be resolved
(Repository.get_commit returns None on a failed lookup). -/
def Repository.get_commit (st : Repository) (rev : String) : Option Nat :=
  (alookup st.branchLog rev).bind List.getLast?

/-- The loop body of Repository.get_new_commits: walk commit_by_branch and
compute the commits since each cursor.  A missing local ref or a None cursor
makes the underlying git call raise (modelled as Except.error); the partial
dict built so far is discarded, matching the Python exception. -/
def getNewCommitsGo (branchLog : List (String × List Nat)) :
    List (String × Option Nat) → Except GitErr (List (String × List Nat))
  | [] => Except.ok []
  | (b, cur) :: rest =>
      match alookup branchLog b, cur with
      | some log, some c =>
          match getNewCommitsGo branchLog rest with
          | Except.ok tl => Except.ok ((b, commitsAfter log c) :: tl)
          | Except.error e => Except.error e
      | _, _ => Except.error (GitErr.gitCommandError b)

/-- Repository.get_new_commits: dict of commits by branch more recent than
those in self.commit_by_branch.  Reads state only, never writes it. -/
def Repository.get_new_commits (st : Repository) :
    Except GitErr (List (String × List Nat)) :=
  getNewCommitsGo st.branchLog st.commit_by_branch

/-- The per-branch loop of Repository.fetch: update each tracked local ref
from the remote (pull and fetch b:b both set the local ref to the remote
head).  A branch missing on the remote raises; earlier iterations keep
their effect on the mirror, matching in-place mutation in Python. -/
def fetchGo (refs : List (String × List Nat)) :
    List String → List (String × List Nat) →
    List (String × List Nat) × Option GitErr
  | [], L => (L, none)
  | b :: bs, L =>
      match alookup refs b with
      | none => (L, some (GitErr.gitCommandError b))
      | some log => fetchGo refs bs (setEntry L b log)

/-- Repository.fetch: remotes[0].update() (fails when the remote is
unreachable), then refresh every tracked branch.  Returns the updated
repository and the raised exception, if any; note it never touches the
error queue itself. -/
def Repository.fetch (st : Repository) (remote : Remote) :
    Repository × Option GitErr :=
  if remote.reachable then
    ({ st with branchLog := (fetchGo remote.refs st.branches st.branchLog).1 },
     (fetchGo remote.refs st.branches st.branchLog).2)
  else
    (st, some (GitErr.gitCommandError "remote update"))

/-- Repository.record_error: append an exception to the error queue. -/
def Repository.record_error (st : Repository) (e : GitErr) : Repository :=
  { st with errors := st.errors ++ [e] }

/-- The per-repository body of GitFetcher.run once the lock is acquired:
try fetch, and on an exception record it on the repository and continue
normally. -/
def fetcherStep (remote : Remote) (st : Repository) : Repository :=
  match st.fetch remote with
  | (st', some e) => st'.record_error e
  | (st', none) => st'

/-- Notification targets of the poll cycle: the (irc, channel) pairs; the
identity of the pair is all the model needs. -/
abbrev Target := Nat

/-- Run the delivery loop of Git._poll over the targets in order.  Each
delivery (_display_commits plus message queueing) either succeeds (none) or
raises (some err); an exception aborts the loop.  Returns the targets that
received their delivery and the exception, if any. -/
def deliverAll (deliver : Target → Option String) :
    List Target → List Target × Option String
  | [] => ([], none)
  | t :: ts =>
      match deliver t with
      | none =>
          match deliverAll deliver ts with
          | (ds, e) => (t :: ds, e)
      | some e => ([], some e)

/-- The cursor-advancement loop of Git._poll: for each branch in the
get_new_commits result, set commit_by_branch[branch] to the current head
(repository.get_commit(branch)). -/
def Repository.advanceAll (st : Repository) (bs : List String) : Repository :=
  { st with commit_by_branch := st.commit_by_branch.map (fun p => if p.1 ∈ bs then (p.1, st.get_commit p.1) else p) }

/-- The locked body of Git._poll for one repository (lines 576-593 of
plugin.py): drain the error queue, compute new commits, deliver to every
target, then advance every branch cursor to the branch's current head.
Everything runs inside one try/except: any exception (from get_new_commits
or from a delivery) aborts the remaining work and is caught and logged.
Returns (repository state, targets delivered, whether an exception was
caught). -/
def pollLockedBody (st : Repository) (targets : List Target)
    (deliver : Target → Option String) :
    Repository × List Target × Bool :=
  let st1 := { st with errors := [] }
  match st1.get_new_commits with
  | Except.error _ => (st1, [], true)
  | Except.ok new =>
      match deliverAll deliver targets with
      | (done, some _) => (st1, done, true)
      | (done, none) => (st1.advanceAll (new.map Prod.fst), done, false)

/-- GitFetcher.__init__ stores self.period = period * 1.1 (the hacky
anti-resonance factor applied to the configured period). -/
def GitFetcher.periodAttr (period : ℚ) : ℚ := period * 11 / 10

/-- The wall-clock state of GitFetcher.run between loop iterations: the
current time and the end_time variable.  Fetch sweeps are modelled as
instantaneous, so time advances only in the sleep loop. -/
structure FetcherClock where
  now : ℚ
  endTime : ℚ
  deriving DecidableEq

/-- The state right after GitFetcher.run starts: time 0, and
end_time = time.time() + self.period / 2. -/
def GitFetcher.runInit (period : ℚ) : FetcherClock :=
  { now := 0, endTime := 0 + GitFetcher.periodAttr period / 2 }

/-- The times of the first n fetch sweeps of GitFetcher.run (no shutdown
request, sweeps instantaneous).  Each loop iteration performs the sweep
over the repositories first, then sleeps until end_time, then sets
end_time = time.time() + self.period. -/
def GitFetcher.runSweeps (period : ℚ) : Nat → FetcherClock → List ℚ
  | 0, _ => []
  | n + 1, ck =>
      ck.now :: GitFetcher.runSweeps period n
        { now := max ck.now ck.endTime,
          endTime := max ck.now ck.endTime + GitFetcher.periodAttr period }

/-- One poll-pipeline repository operation, for stating frame properties
over arbitrary interleavings of the two calls. -/
inductive PollOp where
  | fetchOp
  | diffOp
  deriving DecidableEq

/-- Number of diffOp entries in an operation sequence. -/
def countDiff : List PollOp → Nat
  | [] => 0
  | PollOp.fetchOp :: rest => countDiff rest
  | PollOp.diffOp :: rest => countDiff rest + 1

/-- Run a sequence of Repository.fetch / Repository.get_new_commits calls
against a fixed remote ("no new remote activity"), collecting the value
returned by each get_new_commits call.  A fetch error is what the raw call
raises; it is neither recorded here nor does it change the error queue,
exactly as in Repository.fetch itself. -/
def runOps (remote : Remote) :
    List PollOp → Repository →
    Repository × List (Except GitErr (List (String × List Nat)))
  | [], st => (st, [])
  | PollOp.fetchOp :: ops, st => runOps remote ops (st.fetch remote).1
  | PollOp.diffOp :: ops, st =>
      match runOps remote ops st with
      | (stf, outs) => (stf, st.get_new_commits :: outs)

/-- Python str.split('\n') over a character list: the list of lines, with
the separators removed; one more line than separators, empty lines kept. -/
def splitLines : List Char → List (List Char)
  | [] => [[]]
  | c :: cs =>
      if c = '\n' then [] :: splitLines cs
      else
        match splitLines cs with
        | [] => [[c]]
        | l :: ls => (c :: l) :: ls

/-- commit.message.split('\n')[0]: the first line of the commit message. -/
def firstLineChars (s : String) : List Char :=
  (splitLines s.toList).headD []

/-- The three scanner modes of Repository.format_message; COLOR carries the
accumulated color code. -/
inductive FmtMode where
  | normal
  | subst
  | color (acc : List Char)

/-- The escape scanner of Repository.format_link: literal characters pass
through, a character following a pending percent substitutes the short
(c) or full (C) commit id, any other escaped character passes literally.
The Bool is the pending-escape flag. -/
def formatLinkGo (shortId fullId : List Char) : Bool → List Char → List Char
  | _, [] => []
  | true, c :: cs =>
      (if c = 'c' then shortId else if c = 'C' then fullId else [c])
        ++ formatLinkGo shortId fullId false cs
  | false, c :: cs =>
      if c = '%' then formatLinkGo shortId fullId true cs
      else c :: formatLinkGo shortId fullId false cs

/-- Repository.format_link: render the commit-link template for a commit. -/
def Repository.format_link (st : Repository) (commit : Commit) : String :=
  String.mk (formatLinkGo (commit.hexsha.toList.take 7) commit.hexsha.toList
    false st.commit_link.toList)

/-- The substitution dict built by Repository.format_message, as a partial
function from the key character to the substituted text. -/
def Repository.subst (st : Repository) (commit : Commit) (branch : String)
    (c : Char) : Option (List Char) :=
  if c = 'a' then some commit.authorName.toList
  else if c = 'b' then some branch.toList
  else if c = 'c' then some (commit.hexsha.toList.take 7)
  else if c = 'C' then some commit.hexsha.toList
  else if c = 'e' then some commit.authorEmail.toList
  else if c = 'l' then some (st.format_link commit).toList
  else if c = 'm' then some (firstLineChars commit.message)
  else if c = 'n' then some st.long_name.toList
  else if c = 's' then some st.short_name.toList
  else if c = 'S' then some [' ']
  else if c = 'u' then some st.url.toList
  else if c = 'r' then some ['\x0f']
  else if c = '!' then some ['\x02']
  else if c = '%' then some ['%']
  else none

/-- The per-line state machine of Repository.format_message: NORMAL copies
characters and a percent enters SUBST; SUBST substitutes a known key,
enters COLOR on an opening parenthesis, or copies the unknown key
literally; COLOR accumulates the color code until the closing parenthesis,
then emits the color control character and the code.  A line ending with a
pending escape or an unterminated color code drops the pending part. -/
def scanLine (f : Char → Option (List Char)) : FmtMode → List Char → List Char
  | _, [] => []
  | FmtMode.normal, c :: cs =>
      if c = '%' then scanLine f FmtMode.subst cs
      else c :: scanLine f FmtMode.normal cs
  | FmtMode.subst, c :: cs =>
      match f c with
      | some s => s ++ scanLine f FmtMode.normal cs
      | none =>
          if c = '(' then scanLine f (FmtMode.color []) cs
          else c :: scanLine f FmtMode.normal cs
  | FmtMode.color acc, c :: cs =>
      if c = ')' then '\x03' :: (acc ++ scanLine f FmtMode.normal cs)
      else scanLine f (FmtMode.color (acc ++ [c])) cs

/-- Repository.format_message: split the configured message template into
lines and run the scanner on each; one rendered string per template line. -/
def Repository.format_message (st : Repository) (commit : Commit)
    (branch : String) : List String :=
  (splitLines st.commit_message.toList).map
    (fun line => String.mk (scanLine (st.subst commit branch) FmtMode.normal line))

/-- Python's negative slice commits[-n:]: the last n elements, or the whole
list when n = 0 (since [-0:] is [0:]). -/
def negSlice {α : Type} (n : Nat) (xs : List α) : List α :=
  if n = 0 then xs else xs.drop (xs.length - n)

/-- A placeholder commit; only used as the default of a head lookup on a
list that is never empty at its call site. -/
def defaultCommit : Commit :=
  { hexsha := "", authorName := "", authorEmail := "", message := "" }

/-- Git._display_some_commits: emit the truncation notice when the batch
exceeds maxCommitsAtOnce, then the formatted message lines of the last
maxCommitsAtOnce commits (all of them when maxCommitsAtOnce is zero,
because of the [-0:] slice).  Output is the list of queued message lines,
all for the single channel of the call. -/
def display_some_commits (maxAtOnce : Nat) (st : Repository)
    (commits : List Commit) (branch : String) : List String :=
  (if maxAtOnce < commits.length then
      ["Showing latest " ++ toString maxAtOnce ++ " of "
        ++ toString commits.length ++ " commits to " ++ st.long_name ++ "..."]
    else []) ++
  (negSlice maxAtOnce commits).flatMap (fun c => st.format_message c branch)

/-- The body of Git._display_commits for one branch and one author of the
author set: filter the branch's commits to the author, then either emit
them headerless (group header disabled, or repolog context) or emit the
snarf/push header line first. -/
def displayAuthorGroup (maxAtOnce : Nat) (st : Repository) (branch : String)
    (commits : List Commit) (a : String) (ctx : String) : List String :=
  let commits_ := commits.filter (fun c => c.authorName == a)
  if st.group_header = false ∨ ctx = "repolog" then
    display_some_commits maxAtOnce st commits_ branch
  else
    (if ctx = "snarf" then
        "Talking about " ++ String.mk ((commits_.headD defaultCommit).hexsha.toList.take 7) ++ "?"
      else
        a ++ " pushed " ++ toString commits_.length ++ " commit(s) to "
          ++ branch ++ " at " ++ st.short_name)
      :: display_some_commits maxAtOnce st commits_ branch

/-- Git._display_commits on an already-normalized branch → commit-list
mapping: for each branch, group its commits by author (Python iterates the
set of author names; the set's iteration order is modelled by dedup) and
display each author group. -/
def display_commits (maxAtOnce : Nat) (st : Repository)
    (commits_by_branch : List (String × List Commit)) (ctx : String) :
    List String :=
  commits_by_branch.flatMap
    (fun bc => ((bc.2.map Commit.authorName).dedup).flatMap
      (fun a => displayAuthorGroup maxAtOnce st bc.1 bc.2 a ctx))

/-- Messages emitted through the log while resolving branch patterns
(log_warning for a pattern without matches, log_error when nothing at all
matched). -/
inductive LogMsg where
  | warning (s : String)
  | logError (s : String)
  deriving DecidableEq

/-- Star expansion for glob matching: try the continuation m on every
suffix of the input (the star consumes zero or more characters). -/
def globStar (m : List Char → Bool) : List Char → Bool
  | [] => m []
  | c :: cs => m (c :: cs) || globStar m cs

/-- Glob matching as performed by fnmatch for the feature subset the
branch patterns use: a star matches any (possibly empty) run of
characters, a question mark any single character, anything else itself. -/
def globMatch : List Char → List Char → Bool
  | [], [] => true
  | [], _ :: _ => false
  | '*' :: ps, cs => globStar (globMatch ps) cs
  | '?' :: _, [] => false
  | '?' :: ps, _ :: cs => globMatch ps cs
  | _ :: _, [] => false
  | p :: ps, c :: cs => (p = c) && globMatch ps cs

/-- fnmatch.filter: the names matching the pattern, in input order. -/
def fnmatchFilter (names : List String) (pat : String) : List String :=
  names.filter (fun n => globMatch pat.toList n.toList)

/-- Python str.strip() over characters. -/
def trimChars (l : List Char) : List Char :=
  ((l.dropWhile Char.isWhitespace).reverse.dropWhile Char.isWhitespace).reverse

/-- Python str.split() with no argument over characters: maximal runs of
non-whitespace; leading/trailing/repeated whitespace produces no empty
fields.  The accumulator holds the current field, reversed. -/
def splitWsAux : List Char → List Char → List (List Char)
  | [], acc => if acc = [] then [] else [acc.reverse]
  | c :: cs, acc =>
      if c.isWhitespace then
        if acc = [] then splitWsAux cs []
        else acc.reverse :: splitWsAux cs []
      else splitWsAux cs (c :: acc)

/-- Python str.split() with no argument. -/
def splitWs (s : String) : List (List Char) :=
  splitWsAux s.toList []

/-- The loop of get_branches over the individual patterns: collect the
fnmatch results in order, warning on each pattern with no match. -/
def resolveGo (repo_branches : List String) :
    List String → List String × List LogMsg
  | [] => ([], [])
  | opt :: rest =>
      match resolveGo repo_branches rest with
      | (bs, logs) =>
          match fnmatchFilter repo_branches opt with
          | [] => (bs, LogMsg.warning ("No branch in repository matches " ++ opt) :: logs)
          | matched => (matched ++ bs, logs)

/-- get_branches (the helper inside Repository.clone): split the branches
option on whitespace, strip each token, glob-resolve every pattern against
the remote's branch names, and log a hard error when no pattern matched
anything.  Returns the resolved branches and the emitted log messages. -/
def get_branches (option_val : String) (repo_branches : List String) :
    List String × List LogMsg :=
  match resolveGo repo_branches ((splitWs option_val).map (fun l => String.mk (trimChars l))) with
  | (bs, logs) =>
      if bs = [] then
        (bs, logs ++ [LogMsg.logError ("No branch in repository matches: " ++ option_val)])
      else (bs, logs)

/-- The exceptions Repository.__init__ can raise before any git activity:
the two configuration-validation errors, and the AttributeError from
calling .split() on None when neither channels nor channel is present. -/
inductive InitException where
  | missingRequired (sectionName value : String)
  | unrecognizedValue (sectionName value : String)
  | attributeErrorNoneSplit
  deriving DecidableEq

/-- The required_values list of Repository.__init__. -/
def required_values : List String := ["short name", "url"]

/-- The optional_values list of Repository.__init__. -/
def optional_values : List String :=
  ["branches", "channel", "channels", "commit link", "commit message", "group header"]

/-- Repository.__init__ up to (and excluding) the filesystem and clone
steps: validate the options dict (the two required keys, then no
unrecognized keys), then initialize the fields; computing channels calls
.split() on options.get('channels', options.get('channel')), which raises
AttributeError when both keys are absent.  Mirror state starts empty; it
is populated by clone, modelled separately. -/
def Repository.init (long_name : String) (options : List (String × String)) :
    Except InitException Repository :=
  match required_values.find? (fun n => (alookup options n).isNone) with
  | some n => Except.error (InitException.missingRequired long_name n)
  | none =>
  match options.find? (fun p => !(required_values.contains p.1) && !(optional_values.contains p.1)) with
  | some p => Except.error (InitException.unrecognizedValue long_name p.1)
  | none =>
  match (alookup options "channels").orElse (fun _ => alookup options "channel") with
  | none => Except.error InitException.attributeErrorNoneSplit
  | some chans =>
      Except.ok
        { branches := []
          commit_by_branch := []
          branchLog := []
          errors := []
          channels := (splitWs chans).map String.mk
          commit_link := (alookup options "commit link").getD ""
          commit_message := (alookup options "commit message").getD "[%s|%b|%a] %m"
          group_header := ["true", "yes", "1"].contains ((alookup options "group header").getD "True").toLower
          long_name := long_name
          short_name := (alookup options "short name").getD ""
          url := (alookup options "url").getD "" }

/-- Repository configured as in the spec's concrete formatting scenario. -/
def repoC8 : Repository :=
  { branches := ["main"]
    commit_by_branch := []
    branchLog := []
    errors := []
    channels := ["#demo"]
    commit_link := ""
    commit_message := "[%n|%b|%a] %m"
    group_header := true
    long_name := "Demo"
    short_name := "demo"
    url := "" }

/-- Commit of the concrete formatting scenario: author Ada, a two-line
commit message. -/
def commitC8 : Commit :=
  { hexsha := "0123456789abcdef0123456789abcdef01234567"
    authorName := "Ada"
    authorEmail := "ada@example.org"
    message := "Fix bug\nDetails" }

/-- Claim C8: with template [%n|%b|%a] %m, long name Demo, branch main,
author Ada and the two-line message, format_message returns exactly one
rendered line, [Demo|main|Ada] Fix bug, substituting only the first line
of the commit message for the m key. -/
theorem format_message_demo_scenario :
    repoC8.format_message commitC8 "main" = ["[Demo|main|Ada] Fix bug"] := by
  decide

/-- Claim C2 (code bug evidence): evaluating the fetch-scheduler clock shows
the first sweep happens immediately at time 0 for a configured period of 10
seconds, not after the half-period delay of 5 seconds that the code's own
comment announces; the wait until end_time only separates the first sweep
from the second (at 5.5 = 10 * 1.1 / 2). -/
theorem fetcher_first_sweep_unstaggered :
    GitFetcher.runSweeps 10 3 (GitFetcher.runInit 10) = [0, 11 / 2, 33 / 2] ∧
    (0 : ℚ) ≠ 10 / 2 := by
  constructor
  · norm_num [GitFetcher.runSweeps, GitFetcher.runInit, GitFetcher.periodAttr]
  · norm_num

/-- The pattern loop of get_branches only ever logs warnings; the hard
error is appended afterwards, and only when nothing matched. -/
theorem resolveGo_no_error (rb : List String) (opts : List String) :
    ∀ m ∈ (resolveGo rb opts).2, ∃ s, m = LogMsg.warning s := by
  induction opts with
  | nil =>
    intro m hm
    simp [resolveGo] at hm
  | cons o os ih =>
    intro m hm
    rw [resolveGo] at hm
    rcases hre : resolveGo rb os with ⟨bs, logs⟩
    rw [hre] at hm
    have ih' : ∀ m ∈ logs, ∃ s, m = LogMsg.warning s := by
      intro m' hm'
      exact ih m' (by rw [hre]; exact hm')
    rcases hf : fnmatchFilter rb o with _ | ⟨x, xs⟩ <;> rw [hf] at hm <;> simp at hm
    · rcases hm with hm | hm
      · exact ⟨_, hm⟩
      · exact ih' m hm
    · exact ih' m hm

/-- Claim C9: glob resolution of branch patterns: release* against
{main, release-1, release-2, dev} resolves to exactly {release-1,
release-2} with nothing logged; nomatch* resolves to nothing and logs the
recoverable warning (followed by the hard error, since no pattern of the
repository matched); and in general the hard error is recorded exactly
when the resolved branch list is empty. -/
theorem branch_pattern_resolution :
    get_branches "release*" ["main", "release-1", "release-2", "dev"] =
      (["release-1", "release-2"], []) ∧
    get_branches "nomatch*" ["main", "release-1", "release-2", "dev"] =
      ([], [LogMsg.warning "No branch in repository matches nomatch*",
            LogMsg.logError "No branch in repository matches: nomatch*"]) ∧
    (∀ option_val repo_branches,
      (∃ s, LogMsg.logError s ∈ (get_branches option_val repo_branches).2) ↔
        (get_branches option_val repo_branches).1 = []) := by
  refine ⟨by decide, by decide, ?_⟩
  intro ov rb
  unfold get_branches
  rcases hre : resolveGo rb ((splitWs ov).map (fun l => String.mk (trimChars l))) with ⟨bs, logs⟩
  have hno : ∀ m ∈ logs, ∃ s, m = LogMsg.warning s := by
    intro m hm
    exact resolveGo_no_error rb _ m (by rw [hre]; exact hm)
  by_cases hbs : bs = []
  · subst hbs
    simp only [if_pos rfl]
    constructor
    · intro _
      rfl
    · intro _
      exact ⟨"No branch in repository matches: " ++ ov, by simp⟩
  · simp only [if_neg hbs]
    constructor
    · rintro ⟨s, hs⟩
      obtain ⟨w, hw⟩ := hno _ hs
      simp at hw
    · intro h
      exact absurd h hbs

/-- Claim C10: options with the two required keys present but neither
channels nor channel, and no unrecognized keys, pass both validation loops
and then raise the AttributeError from None.split() during field
initialization — construction neither completes nor produces a validation
error naming the missing field. -/
theorem init_missing_channels_attribute_error (long_name : String)
    (options : List (String × String))
    (h1 : ∃ s, alookup options "short name" = some s)
    (h2 : ∃ s, alookup options "url" = some s)
    (h3 : alookup options "channels" = none)
    (h4 : alookup options "channel" = none)
    (h5 : ∀ p ∈ options, required_values.contains p.1 = true ∨
                         optional_values.contains p.1 = true) :
    Repository.init long_name options =
      Except.error InitException.attributeErrorNoneSplit := by
  obtain ⟨sn, hsn⟩ := h1
  obtain ⟨u, hu⟩ := h2
  have hfind1 : required_values.find? (fun n => (alookup options n).isNone) = none := by
    simp [required_values, List.find?, hsn, hu]
  have hfind2 : options.find? (fun p => !(required_values.contains p.1) && !(optional_values.contains p.1)) = none := by
    rw [List.find?_eq_none]
    intro p hp
    simp only [Bool.and_eq_true, Bool.not_eq_true']
    rcases h5 p hp with h | h <;> simp at h <;> simp
    · intro hn
      exact absurd h hn
    · intro _
      exact h
  unfold Repository.init
  rw [hfind1, hfind2, h3, h4]
  rfl

/-- Claim C10 witness: a concrete options dict with only short name and
url set. -/
theorem init_missing_channels_attribute_error_witness :
    Repository.init "mysection" [("short name", "demo"), ("url", "gitx")] =
      Except.error InitException.attributeErrorNoneSplit :=
  init_missing_channels_attribute_error "mysection"
    [("short name", "demo"), ("url", "gitx")]
    ⟨"demo", by decide⟩ ⟨"gitx", by decide⟩ (by decide) (by decide) (by decide)

/-- Every character of every line produced by splitLines occurs in the
split input. -/
theorem splitLines_chars (cs : List Char) :
    ∀ l ∈ splitLines cs, ∀ c ∈ l, c ∈ cs := by
  induction cs with
  | nil =>
    intro l hl c hc
    simp [splitLines] at hl
    subst hl
    simp at hc
  | cons a cs ih =>
    intro l hl c hc
    rw [splitLines] at hl
    by_cases ha : a = '\n'
    · rw [if_pos ha] at hl
      rcases List.mem_cons.mp hl with hl | hl
      · subst hl
        simp at hc
      · exact List.mem_cons_of_mem a (ih l hl c hc)
    · rw [if_neg ha] at hl
      rcases hsp : splitLines cs with _ | ⟨l0, ls⟩ <;> rw [hsp] at hl
      · rcases List.mem_cons.mp hl with hl | hl
        · subst hl
          rcases List.mem_singleton.mp hc with rfl
          exact List.mem_cons_self _ _
        · simp at hl
      · rcases List.mem_cons.mp hl with hl | hl
        · subst hl
          rcases List.mem_cons.mp hc with rfl | hc
          · exact List.mem_cons_self _ _
          · have hl0 : l0 ∈ splitLines cs := by
              rw [hsp]
              exact List.mem_cons_self l0 ls
            exact List.mem_cons_of_mem a (ih l0 hl0 c hc)
        · have hls : l ∈ splitLines cs := by
            rw [hsp]
            exact List.mem_cons_of_mem l0 hl
          exact List.mem_cons_of_mem a (ih l hls c hc)

/-- A line without any percent character is copied verbatim by the
format_message scanner. -/
theorem scanLine_no_pct (f : Char → Option (List Char)) (l : List Char)
    (h : ∀ c ∈ l, c ≠ '%') : scanLine f FmtMode.normal l = l := by
  induction l with
  | nil => rfl
  | cons c cs ih =>
    have hc : c ≠ '%' := h c (List.mem_cons_self c cs)
    rw [scanLine, if_neg hc, ih (fun x hx => h x (List.mem_cons_of_mem c hx))]

/-- Claim C7: a template without a percent renders each line identically;
a double percent renders as a single percent; a percent followed by a
character that is neither a substitution key nor an opening parenthesis
renders that character literally. -/
theorem format_message_literal_passthrough (st : Repository) (commit : Commit)
    (branch : String) :
    (∀ tmpl : String, (∀ c ∈ tmpl.toList, c ≠ '%') →
        Repository.format_message { st with commit_message := tmpl } commit branch =
          (splitLines tmpl.toList).map String.mk) ∧
    (∀ cs : List Char,
        scanLine (st.subst commit branch) FmtMode.normal ('%' :: '%' :: cs) =
          '%' :: scanLine (st.subst commit branch) FmtMode.normal cs) ∧
    (∀ (c : Char) (cs : List Char), st.subst commit branch c = none → c ≠ '(' →
        scanLine (st.subst commit branch) FmtMode.normal ('%' :: c :: cs) =
          c :: scanLine (st.subst commit branch) FmtMode.normal cs) := by
  refine ⟨?_, ?_, ?_⟩
  · intro tmpl h
    unfold Repository.format_message
    apply List.map_congr_left
    intro l hl
    have hnp : ∀ c ∈ l, c ≠ '%' := fun c hc => h c (splitLines_chars tmpl.toList l hl c hc)
    rw [scanLine_no_pct _ l hnp]
  · intro cs
    rfl
  · intro c cs hnone hnp
    rw [scanLine, if_pos rfl, scanLine, hnone, if_neg hnp]

/-- Claim C7 witness: the three statements at concrete inputs (template
abc; percent-percent; percent-z where z is not a substitution key). -/
theorem format_message_literal_passthrough_witness :
    Repository.format_message { repoC8 with commit_message := "abc" } commitC8 "main" = ["abc"] ∧
    scanLine (repoC8.subst commitC8 "main") FmtMode.normal ['%', '%'] =
      '%' :: scanLine (repoC8.subst commitC8 "main") FmtMode.normal [] ∧
    scanLine (repoC8.subst commitC8 "main") FmtMode.normal ['%', 'z'] =
      'z' :: scanLine (repoC8.subst commitC8 "main") FmtMode.normal [] := by
  have h := format_message_literal_passthrough repoC8 commitC8 "main"
  refine ⟨?_, h.2.1 [], h.2.2 'z' [] (by decide) (by decide)⟩
  rw [h.1 "abc" (by decide)]
  decide

/-- Well-formed tracker state: every tracked branch has a local ref whose
history has no duplicate commit ids and is nonempty (git guarantees both),
and its cursor is an actual commit object, not None. -/
def Repository.WF (st : Repository) : Prop :=
  ∀ p ∈ st.commit_by_branch, ∃ log, alookup st.branchLog p.1 = some log ∧
    log.Nodup ∧ log ≠ [] ∧ ∃ c, p.2 = some c

/-- The commit range whose cursor is the branch head is empty. -/
theorem commitsAfter_getLast : ∀ (log : List Nat), log.Nodup → ∀ (hne : log ≠ []),
    commitsAfter log (log.getLast hne) = []
  | [], _, hne => absurd rfl hne
  | [_], _, _ => by simp [commitsAfter]
  | a :: b :: l', hnd, _ => by
      have hlne : b :: l' ≠ [] := by simp
      have ha : a ≠ (b :: l').getLast hlne := by
        have hmem := List.getLast_mem hlne
        have hnotmem : a ∉ b :: l' := (List.nodup_cons.mp hnd).1
        intro heq
        exact hnotmem (heq ▸ hmem)
      rw [List.getLast_cons hlne, commitsAfter, if_neg ha]
      exact commitsAfter_getLast (b :: l') (List.nodup_cons.mp hnd).2 hlne

/-- With every cursor an actual commit of an existing local ref, the diff
loop succeeds and its result has exactly the tracked branches as keys. -/
theorem getNewCommitsGo_ok (L : List (String × List Nat)) :
    ∀ cbb : List (String × Option Nat),
    (∀ p ∈ cbb, ∃ log c, alookup L p.1 = some log ∧ p.2 = some c) →
    ∃ r, getNewCommitsGo L cbb = Except.ok r ∧ r.map Prod.fst = cbb.map Prod.fst
  | [], _ => ⟨[], rfl, rfl⟩
  | (b, cur) :: rest, h => by
      obtain ⟨log, c, hlog, hcur⟩ := h (b, cur) (List.mem_cons_self _ _)
      obtain ⟨r', hr', hk⟩ :=
        getNewCommitsGo_ok L rest (fun p hp => h p (List.mem_cons_of_mem _ hp))
      have hcur' : cur = some c := hcur
      have hl : alookup L b = some log := hlog
      refine ⟨(b, commitsAfter log c) :: r', ?_, ?_⟩
      · subst hcur'
        rw [getNewCommitsGo.eq_def]
        dsimp only
        rw [hl, hr']
      · simp [hk]

/-- When every cursor equals its branch head, the diff loop returns the
empty list for every tracked branch. -/
theorem getNewCommitsGo_allHead (L : List (String × List Nat)) :
    ∀ cbb : List (String × Option Nat),
    (∀ p ∈ cbb, ∃ log, alookup L p.1 = some log ∧
       log.Nodup ∧ log ≠ [] ∧ p.2 = log.getLast?) →
    getNewCommitsGo L cbb = Except.ok (cbb.map (fun p => (p.1, ([] : List Nat))))
  | [], _ => rfl
  | (b, cur) :: rest, h => by
      obtain ⟨log, hlog, hnd, hne, hcur⟩ := h (b, cur) (List.mem_cons_self _ _)
      have hcur' : cur = some (log.getLast hne) := by
        have heq : cur = log.getLast? := hcur
        rw [heq, List.getLast?_eq_getLast log hne]
      have hl : alookup L b = some log := hlog
      subst hcur'
      rw [getNewCommitsGo.eq_def]
      dsimp only
      rw [hl, getNewCommitsGo_allHead L rest (fun p hp => h p (List.mem_cons_of_mem _ hp))]
      dsimp only
      rw [commitsAfter_getLast log hnd hne]
      rw [List.map_cons]

/-- Claim C4: on a well-formed tracker, get_new_commits succeeds, and after
advancing the cursor of every branch present in the result to that
branch's current head (exactly as Git._poll does), an immediate second
get_new_commits returns the empty commit list for every tracked branch. -/
theorem get_new_commits_advance_idempotent (st : Repository) (hwf : st.WF) :
    ∃ r, st.get_new_commits = Except.ok r ∧
      (st.advanceAll (r.map Prod.fst)).get_new_commits =
        Except.ok (r.map (fun p => (p.1, ([] : List Nat)))) := by
  obtain ⟨r, hr, hk⟩ := getNewCommitsGo_ok st.branchLog st.commit_by_branch
    (fun p hp => by
      obtain ⟨log, hlog, hnd, hne, c, hc⟩ := hwf p hp
      exact ⟨log, c, hlog, hc⟩)
  refine ⟨r, hr, ?_⟩
  have hcbb : (st.advanceAll (r.map Prod.fst)).commit_by_branch =
      st.commit_by_branch.map (fun p => (p.1, st.get_commit p.1)) := by
    apply List.map_congr_left
    intro p hp
    have hpk : p.1 ∈ r.map Prod.fst := by
      rw [hk]
      exact List.mem_map_of_mem Prod.fst hp
    rw [if_pos hpk]
  show getNewCommitsGo st.branchLog (st.advanceAll (r.map Prod.fst)).commit_by_branch = _
  rw [hcbb]
  rw [getNewCommitsGo_allHead st.branchLog _ (by
    intro q hq
    obtain ⟨p, hp, rfl⟩ := List.mem_map.mp hq
    obtain ⟨log, hlog, hnd, hne, c, hc⟩ := hwf p hp
    refine ⟨log, hlog, hnd, hne, ?_⟩
    show st.get_commit p.1 = log.getLast?
    unfold Repository.get_commit
    rw [hlog]
    rfl)]
  congr 1
  have e1 : (st.commit_by_branch.map (fun p => (p.1, st.get_commit p.1))).map
      (fun p => (p.1, ([] : List Nat))) =
      (st.commit_by_branch.map Prod.fst).map (fun b => (b, ([] : List Nat))) := by
    rw [List.map_map, List.map_map]
    rfl
  have e2 : r.map (fun p => (p.1, ([] : List Nat))) =
      (r.map Prod.fst).map (fun b => (b, ([] : List Nat))) := by
    rw [List.map_map]
    rfl
  rw [e1, e2, hk]

/-- State for the claim C4 witness: one branch, cursor one commit behind
the head. -/
def repoC4 : Repository :=
  { branches := ["b"]
    commit_by_branch := [("b", some 1)]
    branchLog := [("b", [1, 2])]
    errors := []
    channels := []
    commit_link := ""
    commit_message := ""
    group_header := true
    long_name := "r4"
    short_name := "r4"
    url := "" }

/-- Claim C4 witness: the theorem applied to the concrete one-branch
tracker. -/
theorem get_new_commits_advance_idempotent_witness :
    repoC4.WF ∧
    ∃ r, repoC4.get_new_commits = Except.ok r ∧
      (repoC4.advanceAll (r.map Prod.fst)).get_new_commits =
        Except.ok (r.map (fun p => (p.1, ([] : List Nat)))) := by
  have hwf : repoC4.WF := by
    intro p hp
    rcases List.mem_singleton.mp hp with rfl
    exact ⟨[1, 2], by decide, by decide, by decide, 1, rfl⟩
  exact ⟨hwf, get_new_commits_advance_idempotent repoC4 hwf⟩

/-- Looking up the key just written finds the written value. -/
theorem alookup_setEntry_self {α : Type} (L : List (String × α)) (k : String) (v : α) :
    alookup (setEntry L k v) k = some v := by
  induction L with
  | nil => simp [setEntry, alookup]
  | cons p rest ih =>
    rcases p with ⟨k', v'⟩
    by_cases h : k' = k
    · subst h
      simp [setEntry, alookup]
    · simp [setEntry, alookup, h, ih]

/-- Writing one key leaves lookups of other keys unchanged. -/
theorem alookup_setEntry_ne {α : Type} (L : List (String × α)) (k k' : String) (v : α)
    (hne : k ≠ k') : alookup (setEntry L k v) k' = alookup L k' := by
  induction L with
  | nil => simp [setEntry, alookup, hne]
  | cons p rest ih =>
    rcases p with ⟨k0, v0⟩
    by_cases h : k0 = k
    · subst h
      simp [setEntry, alookup, hne]
    · simp [setEntry, alookup, h, ih]

/-- A ref that already equals its remote counterpart is untouched by the
fetch loop, whatever else the loop updates. -/
theorem fetchGo_alookup (refs : List (String × List Nat)) :
    ∀ (bs : List String) (L : List (String × List Nat)) (k : String) (log : List Nat),
    alookup L k = some log → alookup refs k = some log →
    alookup (fetchGo refs bs L).1 k = some log
  | [], _, _, _, hL, _ => hL
  | b :: bs, L, k, log, hL, hr => by
      rw [fetchGo.eq_def]
      dsimp only
      rcases hrb : alookup refs b with _ | v <;> dsimp only
      · exact hL
      · by_cases hbk : b = k
        · subst hbk
          rw [hr] at hrb
          injection hrb with hv
          subst hv
          exact fetchGo_alookup refs bs (setEntry L b log) b log
            (alookup_setEntry_self L b log) hr
        · exact fetchGo_alookup refs bs (setEntry L b v) k log
            ((alookup_setEntry_ne L b k v hbk).trans hL) hr

/-- Repository.fetch never touches the cursor map. -/
theorem fetch_cbb (st : Repository) (remote : Remote) :
    (st.fetch remote).1.commit_by_branch = st.commit_by_branch := by
  unfold Repository.fetch
  by_cases h : remote.reachable = true <;> simp [h]

/-- Quiescent tracker: every cursor equals its branch head, and the branch
exists locally and on the remote with the identical (duplicate-free,
nonempty) history — the state of a fully caught-up repository with no new
remote activity. -/
def Quiescent (st : Repository) (remote : Remote) : Prop :=
  ∀ p ∈ st.commit_by_branch, ∃ log, alookup st.branchLog p.1 = some log ∧
    alookup remote.refs p.1 = some log ∧ log.Nodup ∧ log ≠ [] ∧ p.2 = log.getLast?

/-- Fetching from an unchanged remote preserves quiescence. -/
theorem fetch_quiescent (st : Repository) (remote : Remote) (h : Quiescent st remote) :
    Quiescent ((st.fetch remote).1) remote := by
  intro p hp
  rw [fetch_cbb] at hp
  obtain ⟨log, hl, hr, hnd, hne, hcur⟩ := h p hp
  refine ⟨log, ?_, hr, hnd, hne, hcur⟩
  by_cases hre : remote.reachable = true
  · simp only [Repository.fetch, if_pos hre]
    exact fetchGo_alookup remote.refs st.branches st.branchLog p.1 log hl hr
  · simp only [Repository.fetch, if_neg hre]
    exact hl

/-- Frame property of interleaved fetch and diff calls: the cursor map is
never written, and from a quiescent state every diff returns the empty
per-branch lists. -/
theorem runOps_spec (remote : Remote) :
    ∀ (ops : List PollOp) (st : Repository),
    (runOps remote ops st).1.commit_by_branch = st.commit_by_branch ∧
    (Quiescent st remote →
      (runOps remote ops st).2 =
        List.replicate (countDiff ops)
          (Except.ok (st.commit_by_branch.map (fun p => (p.1, ([] : List Nat))))))
  | [], st => ⟨rfl, fun _ => rfl⟩
  | PollOp.fetchOp :: ops, st => by
      have ih := runOps_spec remote ops (st.fetch remote).1
      constructor
      · rw [runOps, ih.1, fetch_cbb]
      · intro hq
        rw [runOps, ih.2 (fetch_quiescent st remote hq), fetch_cbb, countDiff]
  | PollOp.diffOp :: ops, st => by
      have ih := runOps_spec remote ops st
      rcases hro : runOps remote ops st with ⟨stf, outs⟩
      rw [hro] at ih
      constructor
      · rw [runOps.eq_def]
        dsimp only
        rw [hro]
        exact ih.1
      · intro hq
        rw [runOps.eq_def]
        dsimp only
        rw [hro]
        dsimp only
        rw [countDiff, List.replicate_succ]
        have ihout : outs =
            List.replicate (countDiff ops)
              (Except.ok (st.commit_by_branch.map (fun p => (p.1, ([] : List Nat))))) :=
          ih.2 hq
        rw [ihout]
        congr 1
        exact getNewCommitsGo_allHead st.branchLog st.commit_by_branch (fun p hp => by
          obtain ⟨log, hl, hr, hnd, hne, hcur⟩ := hq p hp
          exact ⟨log, hl, hnd, hne, hcur⟩)

/-- Claim C5 (amended): any number of fetch and get_new_commits calls with
no new remote activity leaves every cursor equal to its prior value; and
from a quiescent state (every cursor already at its branch head) every
get_new_commits call in the sequence reports no commits. -/
theorem fetch_diff_frame (remote : Remote) (ops : List PollOp) (st : Repository) :
    (runOps remote ops st).1.commit_by_branch = st.commit_by_branch ∧
    (Quiescent st remote →
      (runOps remote ops st).2 =
        List.replicate (countDiff ops)
          (Except.ok (st.commit_by_branch.map (fun p => (p.1, ([] : List Nat)))))) :=
  runOps_spec remote ops st

/-- State for claim C5: one branch whose cursor lags one commit behind the
(unchanged) remote and local head. -/
def repoC5 : Repository :=
  { branches := ["b"]
    commit_by_branch := [("b", some 1)]
    branchLog := [("b", [1, 2])]
    errors := []
    channels := []
    commit_link := ""
    commit_message := ""
    group_header := true
    long_name := "r5"
    short_name := "r5"
    url := "" }

/-- The unchanged remote for claim C5. -/
def remoteC5 : Remote := { refs := [("b", [1, 2])], reachable := true }

/-- Claim C5 counterexample: from a tracker whose cursor lags behind the
head, a fetch followed by get_new_commits — with no new remote activity —
leaves the cursor untouched but reports commit 2, refuting that no commits
are reported for every tracker state. -/
theorem fetch_diff_frame_counterexample :
    (runOps remoteC5 [PollOp.fetchOp, PollOp.diffOp] repoC5).1.commit_by_branch =
      repoC5.commit_by_branch ∧
    (runOps remoteC5 [PollOp.fetchOp, PollOp.diffOp] repoC5).2 =
      [Except.ok [("b", [2])]] ∧
    ([2] : List Nat) ≠ [] := by
  exact ⟨rfl, rfl, by decide⟩

/-- A quiescent variant of the claim C5 state: the cursor already at the
head. -/
def repoC5q : Repository :=
  { repoC5 with commit_by_branch := [("b", some 2)] }

/-- Claim C5 witness: the amended theorem applied to the quiescent
one-branch tracker over fetch-diff-diff. -/
theorem fetch_diff_frame_witness :
    Quiescent repoC5q remoteC5 ∧
    (runOps remoteC5 [PollOp.fetchOp, PollOp.diffOp, PollOp.diffOp] repoC5q).1.commit_by_branch =
      repoC5q.commit_by_branch ∧
    (runOps remoteC5 [PollOp.fetchOp, PollOp.diffOp, PollOp.diffOp] repoC5q).2 =
      List.replicate 2 (Except.ok [("b", ([] : List Nat))]) := by
  have hq : Quiescent repoC5q remoteC5 := by
    intro p hp
    rcases List.mem_singleton.mp hp with rfl
    exact ⟨[1, 2], by decide, by decide, by decide, by decide, by decide⟩
  have h := fetch_diff_frame remoteC5 [PollOp.fetchOp, PollOp.diffOp, PollOp.diffOp] repoC5q
  refine ⟨hq, h.1, ?_⟩
  rw [h.2 hq]
  rfl

/-- State for claim C3: a tracker about to fetch from an unreachable
remote. -/
def repoC3 : Repository :=
  { branches := ["b"]
    commit_by_branch := [("b", some 1)]
    branchLog := [("b", [1])]
    errors := []
    channels := []
    commit_link := ""
    commit_message := ""
    group_header := true
    long_name := "r3"
    short_name := "r3"
    url := "" }

/-- The unreachable remote for claim C3. -/
def remoteC3 : Remote := { refs := [], reachable := false }

/-- Claim C3 counterexample: when Repository.fetch encounters an error it
IS raised to fetch's caller (the call's outcome is an exception, not a
normal return), and fetch itself leaves the error queue untouched — the
append happens in the scheduler, not in fetch. -/
theorem fetch_error_raised_counterexample :
    (repoC3.fetch remoteC3).2 = some (GitErr.gitCommandError "remote update") ∧
    (repoC3.fetch remoteC3).1.errors = [] :=
  ⟨rfl, rfl⟩

/-- Claim C3 (amended): Repository.fetch never appends to the error queue
and propagates its errors to the caller; the fetch-scheduler caller
(GitFetcher.run) catches the exception, appends it to the repository's
error queue via record_error, and itself completes the step normally. -/
theorem fetch_error_recorded_by_scheduler (remote : Remote) (st : Repository) :
    (st.fetch remote).1.errors = st.errors ∧
    (∀ e, (st.fetch remote).2 = some e →
      (fetcherStep remote st).errors = st.errors ++ [e]) ∧
    ((st.fetch remote).2 = none → fetcherStep remote st = (st.fetch remote).1) := by
  have herr : (st.fetch remote).1.errors = st.errors := by
    unfold Repository.fetch
    by_cases h : remote.reachable = true <;> simp [h]
  refine ⟨herr, ?_, ?_⟩
  · intro e he
    unfold fetcherStep
    rcases hf : st.fetch remote with ⟨st', eo⟩
    rw [hf] at he herr
    have he' : eo = some e := he
    subst he'
    dsimp only
    unfold Repository.record_error
    dsimp only at herr ⊢
    rw [herr]
  · intro he
    unfold fetcherStep
    rcases hf : st.fetch remote with ⟨st', eo⟩
    rw [hf] at he
    have he' : eo = none := he
    subst he'
    rfl

/-- Claim C3 witness: the amended theorem applied to the unreachable
remote: the raised error ends up appended by the scheduler step. -/
theorem fetch_error_recorded_by_scheduler_witness :
    (repoC3.fetch remoteC3).2 = some (GitErr.gitCommandError "remote update") ∧
    (fetcherStep remoteC3 repoC3).errors =
      repoC3.errors ++ [GitErr.gitCommandError "remote update"] := by
  have h := fetch_error_recorded_by_scheduler remoteC3 repoC3
  exact ⟨rfl, h.2.1 (GitErr.gitCommandError "remote update") rfl⟩

/-- When every delivery succeeds, the delivery loop reaches every target in
order and reports no exception. -/
theorem deliverAll_ok (deliver : Target → Option String) :
    ∀ ts : List Target, (∀ t ∈ ts, deliver t = none) →
    deliverAll deliver ts = (ts, none)
  | [], _ => rfl
  | t :: ts, h => by
      rw [deliverAll.eq_def]
      dsimp only
      rw [h t (List.mem_cons_self _ _)]
      dsimp only
      rw [deliverAll_ok deliver ts (fun x hx => h x (List.mem_cons_of_mem _ hx))]

/-- The delivery loop stops at the first failing target: only the
successful prefix is delivered; the failing target and everything after it
receive nothing. -/
theorem deliverAll_stops (deliver : Target → Option String) (e : String) :
    ∀ (pre : List Target) (t : Target) (post : List Target),
    (∀ x ∈ pre, deliver x = none) → deliver t = some e →
    deliverAll deliver (pre ++ t :: post) = (pre, some e)
  | [], t, post, _, ht => by
      rw [List.nil_append, deliverAll.eq_def]
      dsimp only
      rw [ht]
  | x :: pre, t, post, hpre, ht => by
      rw [List.cons_append, deliverAll.eq_def]
      dsimp only
      rw [hpre x (List.mem_cons_self _ _)]
      dsimp only
      rw [deliverAll_stops deliver e pre t post
        (fun y hy => hpre y (List.mem_cons_of_mem _ hy)) ht]

/-- Claim C1 (amended): once new commits are computed by the locked poll
body, cursor advancement happens only when delivery to every target
succeeds, in which case every branch in the result is advanced to its
current head; a delivery error for one target aborts delivery to the
remaining targets and skips cursor advancement entirely — the exception is
caught, leaving the repository with only its error queue drained. -/
theorem poll_cursor_advance_after_delivery (st : Repository)
    (targets : List Target) (deliver : Target → Option String)
    (new : List (String × List Nat))
    (h : Repository.get_new_commits { st with errors := [] } = Except.ok new) :
    ((∀ t ∈ targets, deliver t = none) →
      pollLockedBody st targets deliver =
        (Repository.advanceAll { st with errors := [] } (new.map Prod.fst), targets, false)) ∧
    (∀ (pre : List Target) (t : Target) (post : List Target) (e : String),
      targets = pre ++ t :: post → deliver t = some e → (∀ x ∈ pre, deliver x = none) →
      pollLockedBody st targets deliver = ({ st with errors := [] }, pre, true)) := by
  constructor
  · intro hall
    unfold pollLockedBody
    dsimp only
    rw [h]
    dsimp only
    rw [deliverAll_ok deliver targets hall]
  · intro pre t post e hsplit ht hpre
    subst hsplit
    unfold pollLockedBody
    dsimp only
    rw [h]
    dsimp only
    rw [deliverAll_stops deliver e pre t post hpre ht]

/-- State for claim C1: one branch whose cursor lags one commit behind the
head, so get_new_commits returns a non-empty result. -/
def repoC1 : Repository :=
  { branches := ["b"]
    commit_by_branch := [("b", some 1)]
    branchLog := [("b", [1, 2])]
    errors := []
    channels := []
    commit_link := ""
    commit_message := ""
    group_header := true
    long_name := "r1"
    short_name := "r1"
    url := "" }

/-- Delivery outcomes for the claim C1 counterexample: target 0 raises,
target 1 would succeed. -/
def deliverC1 : Target → Option String :=
  fun t => if t = 0 then some "boom" else none

/-- Claim C1 counterexample: get_new_commits returns the non-empty result
commit 2 on branch b, delivery to the first target raises, and then the
poll body neither delivers to the remaining target (whose delivery would
have succeeded) nor advances the cursor to the head: the cursor stays at
commit 1 although the head is commit 2, and the delivered-target list is
empty. -/
theorem poll_cursor_advance_counterexample :
    Repository.get_new_commits { repoC1 with errors := [] } = Except.ok [("b", [2])] ∧
    deliverC1 1 = none ∧
    (pollLockedBody repoC1 [0, 1] deliverC1).1.commit_by_branch = [("b", some 1)] ∧
    (pollLockedBody repoC1 [0, 1] deliverC1).2.1 = [] ∧
    (pollLockedBody repoC1 [0, 1] deliverC1).2.2 = true ∧
    repoC1.get_commit "b" = some 2 :=
  ⟨rfl, rfl, rfl, rfl, rfl, rfl⟩

/-- Claim C1 witness: with every delivery succeeding, the poll body
advances the cursors of all branches in the result and delivers to both
targets. -/
theorem poll_cursor_advance_after_delivery_witness :
    pollLockedBody repoC1 [0, 1] (fun _ => none) =
      (Repository.advanceAll { repoC1 with errors := [] }
        (([("b", [2])] : List (String × List Nat)).map Prod.fst), [0, 1], false) := by
  have h := poll_cursor_advance_after_delivery repoC1 [0, 1] (fun _ => none) [("b", [2])] rfl
  exact h.1 (fun t _ => rfl)

/-- dedup of a nonempty list whose elements are all equal to a is just
the singleton a. -/
theorem dedup_all_eq {α : Type} [DecidableEq α] (a : α) :
    ∀ xs : List α, xs ≠ [] → (∀ x ∈ xs, x = a) → xs.dedup = [a]
  | [], h, _ => absurd rfl h
  | [x], _, hall => by
      rw [hall x (List.mem_singleton.mpr rfl)]
      simp
  | x :: y :: xs, _, hall => by
      have hx : x = a := hall x (List.mem_cons_self _ _)
      have hy : y = a := hall y (List.mem_cons_of_mem _ (List.mem_cons_self _ _))
      have htl : (y :: xs).dedup = [a] :=
        dedup_all_eq a (y :: xs) (by simp)
          (fun z hz => hall z (List.mem_cons_of_mem _ hz))
      have hmem : x ∈ y :: xs := by
        rw [hx, ← hy]
        exact List.mem_cons_self _ _
      rw [List.dedup_cons_of_mem hmem]
      exact htl

/-- Length of the Python negative slice for a positive bound: the smaller
of the list length and the bound. -/
theorem negSlice_length {α : Type} (n : Nat) (hn : 1 ≤ n) (xs : List α) :
    (negSlice n xs).length = min xs.length n := by
  unfold negSlice
  rw [if_neg (by omega), List.length_drop]
  omega

/-- Claim C6 (amended, for maxCommitsAtOnce at least 1): displaying a batch
of same-author commits on one branch with group headers enabled in a live
polling context emits exactly one header line, then the truncation notice
exactly when the batch exceeds maxCommitsAtOnce, then the entries of the
last min(batch size, maxCommitsAtOnce) commits.  (At maxCommitsAtOnce = 0,
which the registry's NonNegativeInteger type admits, the [-0:] slice
displays all commits instead of none — see the counterexample.) -/
theorem display_batch_shape (maxAtOnce : Nat) (hmax : 1 ≤ maxAtOnce)
    (st : Repository) (hgh : st.group_header = true)
    (a branch : String) (commits : List Commit)
    (hne : commits ≠ []) (hA : ∀ c ∈ commits, c.authorName = a) :
    display_commits maxAtOnce st [(branch, commits)] "commits" =
      (a ++ " pushed " ++ toString commits.length ++ " commit(s) to " ++ branch
        ++ " at " ++ st.short_name)
      :: ((if maxAtOnce < commits.length then
            ["Showing latest " ++ toString maxAtOnce ++ " of "
              ++ toString commits.length ++ " commits to " ++ st.long_name ++ "..."]
          else [])
        ++ (negSlice maxAtOnce commits).flatMap (fun c => st.format_message c branch)) ∧
    (negSlice maxAtOnce commits).length = min commits.length maxAtOnce := by
  have hded : (commits.map Commit.authorName).dedup = [a] := by
    apply dedup_all_eq a
    · simpa using hne
    · intro x hx
      obtain ⟨c, hc, rfl⟩ := List.mem_map.mp hx
      exact hA c hc
  have hfil : commits.filter (fun c => c.authorName == a) = commits := by
    rw [List.filter_eq_self]
    intro c hc
    rw [hA c hc]
    simp
  refine ⟨?_, negSlice_length maxAtOnce hmax commits⟩
  unfold display_commits
  rw [List.flatMap_cons, List.flatMap_nil, List.append_nil]
  dsimp only
  rw [hded, List.flatMap_cons, List.flatMap_nil, List.append_nil]
  unfold displayAuthorGroup
  dsimp only
  rw [hfil]
  rw [if_neg (by simp [hgh]), if_neg (by decide)]
  rfl

/-- Repository for claim C6: single-line message template so each commit
renders as exactly one line. -/
def repoC6 : Repository :=
  { branches := ["main"]
    commit_by_branch := []
    branchLog := []
    errors := []
    channels := []
    commit_link := ""
    commit_message := "x"
    group_header := true
    long_name := "L"
    short_name := "s"
    url := "" }

/-- A commit by Ada for claim C6. -/
def commitC6 : Commit :=
  { hexsha := "abc1234"
    authorName := "Ada"
    authorEmail := ""
    message := "m" }

/-- Claim C6 counterexample: with maxCommitsAtOnce = 0 — a configurable
value, the registry type is NonNegativeInteger — and a batch of one
commit, the code emits the header, the truncation notice, and then one
commit entry, because commits[-0:] is the whole list; the claim's
min(K, maxCommitsAtOnce) = min(1, 0) = 0 predicts no commit entry. -/
theorem display_batch_zero_max_counterexample :
    display_commits 0 repoC6 [("main", [commitC6])] "commits" =
      ["Ada pushed 1 commit(s) to main at s",
       "Showing latest 0 of 1 commits to L...",
       "x"] ∧
    (negSlice 0 [commitC6]).length = 1 ∧
    min 1 0 ≠ 1 :=
  ⟨rfl, rfl, by decide⟩

/-- Three commits by Ada for the claim C6 witness. -/
def commitsC6 : List Commit :=
  [commitC6, { commitC6 with hexsha := "def5678" }, { commitC6 with hexsha := "abcdef0" }]

/-- Claim C6 witness: the amended theorem applied to a batch of three
commits with maxCommitsAtOnce = 2: one header, the truncation notice, and
the entries of the last two commits. -/
theorem display_batch_shape_witness :
    display_commits 2 repoC6 [("main", commitsC6)] "commits" =
      ("Ada" ++ " pushed " ++ toString commitsC6.length ++ " commit(s) to " ++ "main"
        ++ " at " ++ repoC6.short_name)
      :: ((if 2 < commitsC6.length then
            ["Showing latest " ++ toString 2 ++ " of "
              ++ toString commitsC6.length ++ " commits to " ++ repoC6.long_name ++ "..."]
          else [])
        ++ (negSlice 2 commitsC6).flatMap (fun c => repoC6.format_message c "main")) ∧
    (negSlice 2 commitsC6).length = min commitsC6.length 2 :=
  display_batch_shape 2 (by decide) repoC6 rfl "Ada" "main" commitsC6
    (by decide) (by decide)
